import Mathlib

set_option autoImplicit false

/-!
A shallow embedding of `cache.go` from ghstahl/go-syncmap-cache.

Conventions of the embedding:
* Go timestamps (`time.Now().UnixNano()`) and durations are `Int` nanosecond
  counts; every operation that calls `time.Now()` in Go takes the current time
  `now : Int` as an explicit argument.
* The `sync.Map` holding the items is an association list with at most one
  binding per key (`ItemMap`); `Store` overwrites, `Delete` removes the key,
  `Range` is a fold over the bindings.  The source only ever stores `Item`
  values under `string` keys, so the embedding types the map that way.
* Go machine integers are `Int` with explicit wrapping (`swrap`/`uwrap`);
  `int`, `uint` and `uintptr` are modelled at 64 bits.  The `float32`/`float64`
  cases of the value switch are outside the embedding (floating point); the
  dynamic value type `GoVal` covers the eleven integer kinds plus an opaque
  non-numeric payload `vStr`, which falls to the `default` branch exactly as a
  non-numeric Go value does.
* The `atomic.Uint32` counter is a `Nat` taken modulo `2 ^ 32`; `Inc` adds one
  and `Dec` subtracts one, both wrapping.
* The eviction hook `onEvicted` is modelled by its presence (`hasHook`)
  together with an explicit trace of the invocations an operation performs,
  in order: each event is the `(key, value)` pair the hook is called with,
  the value being the `interface{}` argument (`none` models Go `nil`).
* A Go runtime panic (here: assignment to a nil map) is `none` in an
  `Option`-typed result; fallible operations return `Except String` with the
  `fmt.Errorf` text.
-/

namespace GoSyncmapCache

/-- Two-complement wrap of an integer to `w` bits (Go signed overflow). -/
def swrap (w : Nat) (n : Int) : Int :=
  (n + 2 ^ (w - 1)) % 2 ^ w - 2 ^ (w - 1)

/-- Wrap of an integer to `w` unsigned bits (Go unsigned conversion/overflow). -/
def uwrap (w : Nat) (n : Int) : Int :=
  n % 2 ^ w

/-- The dynamically-typed payload stored in an `Item` (`interface{}` in Go),
restricted to the integer kinds of the arithmetic switch plus an opaque
non-numeric payload. -/
inductive GoVal where
  | vInt (n : Int)
  | vInt8 (n : Int)
  | vInt16 (n : Int)
  | vInt32 (n : Int)
  | vInt64 (n : Int)
  | vUint (n : Int)
  | vUintptr (n : Int)
  | vUint8 (n : Int)
  | vUint16 (n : Int)
  | vUint32 (n : Int)
  | vUint64 (n : Int)
  | vStr (s : String)
  deriving DecidableEq, Repr

/-- `type Item struct { Object interface{}; Expiration int64 }`. -/
structure Item where
  Object : GoVal
  Expiration : Int
  deriving DecidableEq, Repr

/-- `func (item Item) Expired() bool`: zero expiration means never expires,
otherwise expired iff `now` is strictly past the expiration. -/
def Item.Expired (item : Item) (now : Int) : Bool :=
  if item.Expiration = 0 then false
  else decide (item.Expiration < now)

/-- The contents of the `sync.Map`: an association list with unique keys. -/
abbrev ItemMap := List (String × Item)

/-- `sync.Map.Load`. -/
def mapLoad (m : ItemMap) (k : String) : Option Item :=
  match m with
  | [] => none
  | (k2, v) :: rest => if k2 = k then some v else mapLoad rest k

/-- `sync.Map.Store`: overwrite the binding for `k`, or append a new one. -/
def mapStore (m : ItemMap) (k : String) (v : Item) : ItemMap :=
  match m with
  | [] => [(k, v)]
  | (k2, v2) :: rest =>
    if k2 = k then (k, v) :: rest else (k2, v2) :: mapStore rest k v

/-- `sync.Map.Delete`: remove every binding for `k`. -/
def mapDelete (m : ItemMap) (k : String) : ItemMap :=
  match m with
  | [] => []
  | (k2, v2) :: rest =>
    if k2 = k then mapDelete rest k else (k2, v2) :: mapDelete rest k

/-- Modulus of the `atomic.Uint32` live counter. -/
def uint32Mod : Nat := 2 ^ 32

/-- The state of a `cache` value: default expiration, the `sync.Map` contents,
the `atomic.Uint32` counter, and whether an `onEvicted` hook is registered. -/
structure CacheState where
  defaultExpiration : Int
  items : ItemMap
  counter : Nat
  hasHook : Bool
  deriving DecidableEq, Repr

/-- A trace of eviction-hook invocations `(key, value)` made by an operation,
in order.  The value is the hook's `interface{}` argument (`none` is Go `nil`). -/
abbrev Evicted := List (String × Option GoVal)

/-- `const DefaultExpiration time.Duration = 0`. -/
def DefaultExpiration : Int := 0

/-- `const NoExpiration time.Duration = -1`. -/
def NoExpiration : Int := -1

/-- `func (c *cache) safeStore(key, value)`: `items.Store` then `counter.Inc()`. -/
def safeStore (c : CacheState) (k : String) (v : Item) : CacheState :=
  { c with items := mapStore c.items k v, counter := (c.counter + 1) % uint32Mod }

/-- `func (c *cache) safeDelete(key)`: `items.Delete` then `counter.Dec()`
(a `uint32` decrement, wrapping at zero). -/
def safeDelete (c : CacheState) (k : String) : CacheState :=
  { c with items := mapDelete c.items k,
           counter := (c.counter + (uint32Mod - 1)) % uint32Mod }

/-- `func (c *cache) Set(k, x, d)`: unconditional upsert; duration `0` means
the cache default, a positive duration expires at `now + d`, otherwise the
stored expiration is `0` (never).  The source never invokes the eviction hook
here, so the event trace is empty. -/
def Set (c : CacheState) (now : Int) (k : String) (x : GoVal) (d : Int) :
    CacheState × Evicted :=
  let d2 := if d = DefaultExpiration then c.defaultExpiration else d
  let e : Int := if 0 < d2 then now + d2 else 0
  (safeStore c k { Object := x, Expiration := e }, [])

/-- `func (c *cache) set(k, x, d)`: identical body to `Set`. -/
def set (c : CacheState) (now : Int) (k : String) (x : GoVal) (d : Int) :
    CacheState :=
  let d2 := if d = DefaultExpiration then c.defaultExpiration else d
  let e : Int := if 0 < d2 then now + d2 else 0
  safeStore c k { Object := x, Expiration := e }

/-- `func (c *cache) Get(k)`: `none` models `(nil, false)`. -/
def Get (c : CacheState) (now : Int) (k : String) : Option GoVal :=
  match mapLoad c.items k with
  | none => none
  | some item =>
    if 0 < item.Expiration then
      if item.Expiration < now then none
      else some item.Object
    else some item.Object

/-- `func (c *cache) get(k)`: identical checks to `Get`. -/
def get (c : CacheState) (now : Int) (k : String) : Option GoVal :=
  match mapLoad c.items k with
  | none => none
  | some item =>
    if 0 < item.Expiration then
      if item.Expiration < now then none
      else some item.Object
    else some item.Object

/-- `func (c *cache) Add(k, x, d)`: error if `get` finds a live entry,
otherwise `set`. -/
def Add (c : CacheState) (now : Int) (k : String) (x : GoVal) (d : Int) :
    Except String CacheState :=
  match get c now k with
  | some _ => .error ("Item " ++ k ++ " already exists")
  | none => .ok (set c now k x d)

/-- The `switch v.Object.(type)` of `func (c *cache) Increment(k, n int64)`:
the delta is narrowed to the stored type and added with that type's
wrapping arithmetic; `none` is the `default` (non-numeric) branch. -/
def incSwitch (v : GoVal) (n : Int) : Option GoVal :=
  match v with
  | .vInt m => some (.vInt (swrap 64 (m + swrap 64 n)))
  | .vInt8 m => some (.vInt8 (swrap 8 (m + swrap 8 n)))
  | .vInt16 m => some (.vInt16 (swrap 16 (m + swrap 16 n)))
  | .vInt32 m => some (.vInt32 (swrap 32 (m + swrap 32 n)))
  | .vInt64 m => some (.vInt64 (swrap 64 (m + n)))
  | .vUint m => some (.vUint (uwrap 64 (m + uwrap 64 n)))
  | .vUintptr m => some (.vUintptr (uwrap 64 (m + uwrap 64 n)))
  | .vUint8 m => some (.vUint8 (uwrap 8 (m + uwrap 8 n)))
  | .vUint16 m => some (.vUint16 (uwrap 16 (m + uwrap 16 n)))
  | .vUint32 m => some (.vUint32 (uwrap 32 (m + uwrap 32 n)))
  | .vUint64 m => some (.vUint64 (uwrap 64 (m + uwrap 64 n)))
  | .vStr _ => none

/-- The `switch v.Object.(type)` of `func (c *cache) Decrement(k, n int64)`:
same shape as `incSwitch` with subtraction. -/
def decSwitch (v : GoVal) (n : Int) : Option GoVal :=
  match v with
  | .vInt m => some (.vInt (swrap 64 (m - swrap 64 n)))
  | .vInt8 m => some (.vInt8 (swrap 8 (m - swrap 8 n)))
  | .vInt16 m => some (.vInt16 (swrap 16 (m - swrap 16 n)))
  | .vInt32 m => some (.vInt32 (swrap 32 (m - swrap 32 n)))
  | .vInt64 m => some (.vInt64 (swrap 64 (m - n)))
  | .vUint m => some (.vUint (uwrap 64 (m - uwrap 64 n)))
  | .vUintptr m => some (.vUintptr (uwrap 64 (m - uwrap 64 n)))
  | .vUint8 m => some (.vUint8 (uwrap 8 (m - uwrap 8 n)))
  | .vUint16 m => some (.vUint16 (uwrap 16 (m - uwrap 16 n)))
  | .vUint32 m => some (.vUint32 (uwrap 32 (m - uwrap 32 n)))
  | .vUint64 m => some (.vUint64 (uwrap 64 (m - uwrap 64 n)))
  | .vStr _ => none

/-- `func (c *cache) Increment(k string, n int64) error`. -/
def Increment (c : CacheState) (now : Int) (k : String) (n : Int) :
    Except String CacheState :=
  match mapLoad c.items k with
  | none => .error ("Item " ++ k ++ " not found")
  | some item =>
    if item.Expired now then .error ("Item " ++ k ++ " not found")
    else
      match incSwitch item.Object n with
      | none => .error ("The value for " ++ k ++ " is not an integer")
      | some x => .ok (safeStore c k { item with Object := x })

/-- `func (c *cache) Decrement(k string, n int64) error`
(note the source's not-found message here omits the key). -/
def Decrement (c : CacheState) (now : Int) (k : String) (n : Int) :
    Except String CacheState :=
  match mapLoad c.items k with
  | none => .error ("Item not found")
  | some item =>
    if item.Expired now then .error ("Item not found")
    else
      match decSwitch item.Object n with
      | none => .error ("The value for " ++ k ++ " is not an integer")
      | some x => .ok (safeStore c k { item with Object := x })

/-- `func (c *cache) IncrementInt64(k string, n int64) (int64, error)`. -/
def IncrementInt64 (c : CacheState) (now : Int) (k : String) (n : Int) :
    Except String (Int × CacheState) :=
  match mapLoad c.items k with
  | none => .error ("Item " ++ k ++ " not found")
  | some item =>
    if item.Expired now then .error ("Item " ++ k ++ " not found")
    else
      match item.Object with
      | .vInt64 rv =>
        let nv := swrap 64 (rv + n)
        .ok (nv, safeStore c k { item with Object := .vInt64 nv })
      | _ => .error ("The value for " ++ k ++ " is not an int64")

/-- `func (c *cache) DecrementInt64(k string, n int64) (int64, error)`. -/
def DecrementInt64 (c : CacheState) (now : Int) (k : String) (n : Int) :
    Except String (Int × CacheState) :=
  match mapLoad c.items k with
  | none => .error ("Item " ++ k ++ " not found")
  | some item =>
    if item.Expired now then .error ("Item " ++ k ++ " not found")
    else
      match item.Object with
      | .vInt64 rv =>
        let nv := swrap 64 (rv - n)
        .ok (nv, safeStore c k { item with Object := .vInt64 nv })
      | _ => .error ("The value for " ++ k ++ " is not an int64")

/-- `func (c *cache) delete(k)`: if a hook is registered and the key is
present, delete and report `(Object, true)`; on every other path still
`safeDelete` and report `(nil, false)`. -/
def delete (c : CacheState) (k : String) : (Option GoVal × Bool) × CacheState :=
  if c.hasHook then
    match mapLoad c.items k with
    | some item => ((some item.Object, true), safeDelete c k)
    | none => ((none, false), safeDelete c k)
  else
    ((none, false), safeDelete c k)

/-- `func (c *cache) Delete(k)`: `delete`, then invoke the hook with the
previous value when `evicted` is reported. -/
def Delete (c : CacheState) (k : String) : CacheState × Evicted :=
  match delete c k with
  | ((v, evicted), c2) => if evicted then (c2, [(k, v)]) else (c2, [])

/-- The body of the `Range` closure in `DeleteExpired`, acting on the evolving
state and the list of evicted `(key, value)` pairs collected so far.  `kv` is
the key/value pair the `Range` visit presents. -/
def sweepStep (now : Int) (acc : CacheState × Evicted) (kv : String × Item) :
    CacheState × Evicted :=
  if 0 < kv.2.Expiration ∧ kv.2.Expiration < now then
    match delete acc.1 kv.1 with
    | ((ov, evicted), st) =>
      if evicted then (st, acc.2 ++ [(kv.1, ov)]) else (st, acc.2)
  else acc

/-- `func (c *cache) DeleteExpired()`: `Range` over the entries, deleting
those whose visited value is expired at `now`, then invoke the hook once per
collected eviction (the returned trace). -/
def DeleteExpired (c : CacheState) (now : Int) : CacheState × Evicted :=
  c.items.foldl (sweepStep now) (c, [])

/-- A Go `map[string]Item` value: either the nil map or an allocated map. -/
inductive GoMap where
  | nilMap
  | mkMap (entries : List (String × Item))
  deriving DecidableEq, Repr

/-- `m[k] = v` on a Go map: assignment to a nil map is a runtime panic
(`none`); otherwise the binding is stored. -/
def goMapAssign (m : GoMap) (k : String) (v : Item) : Option GoMap :=
  match m with
  | .nilMap => none
  | .mkMap es => some (.mkMap (mapStore es k v))

/-- `func (c *cache) Items() map[string]Item`: declares `var m map[string]Item`
(the nil map, never allocated) and assigns every unexpired entry into it while
ranging; `none` models the panic raised by the first such assignment. -/
def Items (c : CacheState) (now : Int) : Option GoMap :=
  c.items.foldl
    (fun (acc : Option GoMap) (kv : String × Item) =>
      match acc with
      | none => none
      | some m =>
        if 0 < kv.2.Expiration then
          if kv.2.Expiration < now then some m
          else goMapAssign m kv.1 kv.2
        else goMapAssign m kv.1 kv.2)
    (some GoMap.nilMap)

/-- `func (c *cache) ItemCount() uint32`: the raw counter value. -/
def ItemCount (c : CacheState) : Nat := c.counter

/-- `func (c *cache) Flush()`: `Range` with `safeDelete` on every visited key;
the source never consults the eviction hook here, so the trace is empty. -/
def Flush (c : CacheState) : CacheState × Evicted :=
  (c.items.foldl (fun st kv => safeDelete st kv.1) c, [])

/-- The spec's notion of a live (non-expired) entry being present for a key:
an entry exists whose expiration is unset or not yet strictly passed. -/
def liveEntry (c : CacheState) (now : Int) (k : String) : Prop :=
  ∃ it, mapLoad c.items k = some it ∧ (it.Expiration = 0 ∨ now ≤ it.Expiration)

/-- Iterated `IncrementInt64`: `m` successive calls, failing if any call
returns an error. -/
def iterInc (now : Int) (k : String) (n : Int) : Nat → CacheState → Option CacheState
  | 0, c => some c
  | m + 1, c =>
    match IncrementInt64 c now k n with
    | .ok (_, c2) => iterInc now k n m c2
    | .error _ => none

/-! ### Helper lemmas about the map and state primitives -/

theorem mapLoad_mapStore_self (m : ItemMap) (k : String) (v : Item) :
    mapLoad (mapStore m k v) k = some v := by
  induction m with
  | nil => simp [mapStore, mapLoad]
  | cons q tl ih =>
    by_cases h : q.1 = k
    · simp [mapStore, mapLoad, h]
    · simp [mapStore, mapLoad, h, ih]

theorem mapLoad_mapStore_ne (m : ItemMap) (k k2 : String) (v : Item)
    (h : k2 ≠ k) : mapLoad (mapStore m k v) k2 = mapLoad m k2 := by
  have h2 : k ≠ k2 := Ne.symm h
  induction m with
  | nil => simp [mapStore, mapLoad, h2]
  | cons q tl ih =>
    by_cases hq : q.1 = k
    · by_cases hq2 : q.1 = k2
      · exact absurd (hq2.symm.trans hq) h2.symm
      · simp [mapStore, mapLoad, hq, hq2, h2]
    · by_cases hq2 : q.1 = k2
      · simp [mapStore, mapLoad, hq, hq2, h]
      · simp [mapStore, mapLoad, hq, hq2, ih]

theorem mem_mapDelete_iff (m : ItemMap) (k : String) (p : String × Item) :
    p ∈ mapDelete m k ↔ p ∈ m ∧ p.1 ≠ k := by
  induction m with
  | nil => simp [mapDelete]
  | cons q tl ih =>
    by_cases h : q.1 = k
    · simp only [mapDelete, if_pos h, ih, List.mem_cons]
      constructor
      · rintro ⟨hm, hne⟩; exact ⟨Or.inr hm, hne⟩
      · rintro ⟨hm, hne⟩
        rcases hm with rfl | hm2
        · exact absurd h hne
        · exact ⟨hm2, hne⟩
    · simp only [mapDelete, if_neg h, List.mem_cons, ih]
      constructor
      · rintro (rfl | ⟨hm, hne⟩)
        · exact ⟨Or.inl rfl, h⟩
        · exact ⟨Or.inr hm, hne⟩
      · rintro ⟨rfl | hm, hne⟩
        · exact Or.inl rfl
        · exact Or.inr ⟨hm, hne⟩

theorem mem_of_mem_mapDelete {m : ItemMap} {k : String} {p : String × Item}
    (h : p ∈ mapDelete m k) : p ∈ m :=
  ((mem_mapDelete_iff m k p).mp h).1

theorem not_mem_mapDelete (m : ItemMap) (p : String × Item) :
    p ∉ mapDelete m p.1 := by
  intro h
  exact ((mem_mapDelete_iff m p.1 p).mp h).2 rfl

theorem delete_state (c : CacheState) (k : String) :
    (delete c k).2 = safeDelete c k := by
  unfold delete
  split
  · cases h : mapLoad c.items k <;> simp
  · rfl

/-! ### Lemmas about the sweep fold of DeleteExpired -/

theorem sweepStep_state (now : Int) (acc : CacheState × Evicted) (kv : String × Item) :
    (sweepStep now acc kv).1 = acc.1 ∨
    (sweepStep now acc kv).1 = safeDelete acc.1 kv.1 := by
  unfold sweepStep
  split
  · right
    rcases hd : delete acc.1 kv.1 with ⟨⟨ov, ev⟩, st⟩
    have h := delete_state acc.1 kv.1
    rw [hd] at h
    cases ev <;> simpa using h
  · left; rfl

theorem sweepStep_deletes (now : Int) (acc : CacheState × Evicted) (kv : String × Item)
    (h1 : 0 < kv.2.Expiration) (h2 : kv.2.Expiration < now) :
    (sweepStep now acc kv).1 = safeDelete acc.1 kv.1 := by
  unfold sweepStep
  rw [if_pos ⟨h1, h2⟩]
  rcases hd : delete acc.1 kv.1 with ⟨⟨ov, ev⟩, st⟩
  have h := delete_state acc.1 kv.1
  rw [hd] at h
  cases ev <;> simpa using h

theorem foldl_sweep_subset (now : Int) (l : ItemMap) :
    ∀ (acc : CacheState × Evicted) (p : String × Item),
      p ∈ (List.foldl (sweepStep now) acc l).1.items → p ∈ acc.1.items := by
  induction l with
  | nil => intro acc p h; simpa using h
  | cons kv tl ih =>
    intro acc p h
    rw [List.foldl_cons] at h
    have h2 := ih (sweepStep now acc kv) p h
    rcases sweepStep_state now acc kv with he | he
    · rwa [he] at h2
    · rw [he] at h2
      exact mem_of_mem_mapDelete h2

theorem foldl_sweep_removes (now : Int) (l : ItemMap) :
    ∀ (acc : CacheState × Evicted) (p : String × Item),
      p ∈ l → 0 < p.2.Expiration → p.2.Expiration < now →
      p ∉ (List.foldl (sweepStep now) acc l).1.items := by
  induction l with
  | nil => intro acc p h; simp at h
  | cons kv tl ih =>
    intro acc p hmem h1 h2 hcontra
    rw [List.foldl_cons] at hcontra
    rcases List.mem_cons.mp hmem with rfl | htl
    · have hsub := foldl_sweep_subset now tl (sweepStep now acc p) p hcontra
      rw [sweepStep_deletes now acc p h1 h2] at hsub
      exact not_mem_mapDelete _ _ hsub
    · exact ih (sweepStep now acc kv) p htl h1 h2 hcontra

/-! ### Lemmas about the Flush fold -/

theorem flush_fold_empty (l : ItemMap) :
    ∀ st : CacheState, (∀ p ∈ st.items, p.1 ∈ l.map Prod.fst) →
      (List.foldl (fun st kv => safeDelete st kv.1) st l).items = [] := by
  induction l with
  | nil =>
    intro st h
    cases hst : st.items with
    | nil => simp [hst]
    | cons p tl =>
      have := h p (by rw [hst]; exact List.mem_cons_self p tl)
      simp at this
  | cons kv tl ih =>
    intro st h
    rw [List.foldl_cons]
    apply ih
    intro p hp
    have hp2 : p ∈ mapDelete st.items kv.1 := hp
    have hmem := mem_of_mem_mapDelete hp2
    have hne := ((mem_mapDelete_iff st.items kv.1 p).mp hp2).2
    have hk := h p hmem
    simp only [List.map_cons, List.mem_cons] at hk
    rcases hk with h1 | h2
    · exact absurd h1 hne
    · simpa using h2

/-! ### Claim theorems -/

/-- Claim C1 (code bug): `Items` is documented to copy all unexpired entries
into a new map, but the code declares `var m map[string]Item` — the nil map —
and never allocates it, so the first assignment of a live entry is a runtime
panic.  At a store holding live entries, `Items` aborts (`none`) instead of
returning the snapshot mapping of live entries. -/
theorem items_live_entries_abort :
    Items ⟨-1, [("k1", ⟨.vInt64 7, 0⟩), ("k2", ⟨.vInt64 8, 500⟩)], 2, false⟩ 100
      = none := by decide

/-- Claim C2 (code bug): not every public operation returns normally — `Items`
on a store with a live entry panics (first conjunct), while on a store with no
live entry it does return (the nil map, which reads as empty; second
conjunct). -/
theorem items_nonempty_abort :
    Items ⟨-1, [("x", ⟨.vInt 3, 0⟩)], 1, false⟩ 10 = none ∧
    Items ⟨-1, [("y", ⟨.vInt 3, 4⟩)], 1, false⟩ 10 = some GoMap.nilMap := by
  decide

/-- Claim C3: expiration is a strict comparison.  For an entry present under
`k` with finite expiry (`0 < Expiration`), `Get` returns `none` for query
times strictly past the expiry and the stored value for query times up to and
including the expiry instant; an entry with no expiration set
(`Expiration = 0`) is always returned. -/
theorem get_expiration_strict (c : CacheState) (now : Int) (k : String)
    (it : Item) (hload : mapLoad c.items k = some it) :
    (0 < it.Expiration →
      ((it.Expiration < now → Get c now k = none) ∧
       (now ≤ it.Expiration → Get c now k = some it.Object))) ∧
    (it.Expiration = 0 → Get c now k = some it.Object) := by
  unfold Get
  rw [hload]
  dsimp only
  refine ⟨fun hpos => ⟨fun hlt => ?_, fun hle => ?_⟩, fun h0 => ?_⟩
  · rw [if_pos hpos, if_pos hlt]
  · rw [if_pos hpos, if_neg (not_lt.mpr hle)]
  · rw [if_neg (by omega : ¬ (0:Int) < it.Expiration)]

/-- Witness for C3: a concrete entry with expiry 100 is returned at query
time 100 and gone at query time 101. -/
theorem get_expiration_strict_w :
    Get ⟨-1, [("a", ⟨.vInt64 1, 100⟩)], 1, false⟩ 100 "a" = some (.vInt64 1) ∧
    Get ⟨-1, [("a", ⟨.vInt64 1, 100⟩)], 1, false⟩ 101 "a" = none :=
  ⟨((get_expiration_strict ⟨-1, [("a", ⟨.vInt64 1, 100⟩)], 1, false⟩ 100 "a"
      ⟨.vInt64 1, 100⟩ (by decide)).1 (by decide)).2 (by decide),
   ((get_expiration_strict ⟨-1, [("a", ⟨.vInt64 1, 100⟩)], 1, false⟩ 101 "a"
      ⟨.vInt64 1, 100⟩ (by decide)).1 (by decide)).1 (by decide)⟩

/-- Counterexample to claim C4 as stated: the sweep removes only entries whose
expiry is strictly in the past.  After a synchronous `DeleteExpired` at time
`T = 100`, the entry with expiry exactly `100 ≤ T` is still in the store, and
`Items` at time 100 does not treat it as expired — it attempts to include it
(and therefore aborts on the nil map rather than returning a mapping without
the entry). -/
theorem deleteExpired_boundary_remains :
    ("a", (⟨.vInt64 1, 100⟩ : Item)) ∈
        (DeleteExpired ⟨-1, [("a", ⟨.vInt64 1, 100⟩)], 1, false⟩ 100).1.items ∧
    Items (DeleteExpired ⟨-1, [("a", ⟨.vInt64 1, 100⟩)], 1, false⟩ 100).1 100
      = none := by
  decide

/-- Claim C4 (amended): immediately after a synchronous `DeleteExpired` at
time `T`, no entry whose finite expiry timestamp is strictly less than `T`
remains in the store (so none such is kept by the liveness filter of `Items`);
an entry whose expiry equals `T` survives the sweep. -/
theorem deleteExpired_complete (c : CacheState) (now : Int) (p : String × Item)
    (hmem : p ∈ (DeleteExpired c now).1.items) (hfin : 0 < p.2.Expiration) :
    now ≤ p.2.Expiration := by
  by_contra h
  push_neg at h
  exact foldl_sweep_removes now c.items (c, []) p
    (foldl_sweep_subset now c.items (c, []) p hmem) hfin h hmem

/-- Witness for C4: the surviving boundary entry of a concrete sweep satisfies
the amended bound. -/
theorem deleteExpired_complete_w : (50 : Int) ≤ 100 :=
  deleteExpired_complete ⟨-1, [("a", ⟨.vInt64 1, 100⟩)], 1, false⟩ 50
    ("a", ⟨.vInt64 1, 100⟩) (by decide) (by decide)

/-- Claim C8: the live counter is a wrapping `uint32` bumped by one on every
insertion path (`safeStore`, hence `Set`/`set` — also on overwrite, with no
matching decrement) and dropped by one on every deletion path (`safeDelete`,
hence `Delete` — unconditionally, whether or not the key was present and
whether or not a hook is registered). -/
theorem counter_drift (c : CacheState) (now : Int) (k : String) (x : GoVal)
    (d : Int) (v : Item) :
    (safeStore c k v).counter = (c.counter + 1) % uint32Mod ∧
    (safeDelete c k).counter = (c.counter + (uint32Mod - 1)) % uint32Mod ∧
    (Set c now k x d).1.counter = (c.counter + 1) % uint32Mod ∧
    (set c now k x d).counter = (c.counter + 1) % uint32Mod ∧
    (Delete c k).1.counter = (c.counter + (uint32Mod - 1)) % uint32Mod := by
  refine ⟨rfl, rfl, rfl, rfl, ?_⟩
  unfold Delete
  rcases hd : delete c k with ⟨⟨ov, ev⟩, c2⟩
  have h := delete_state c k
  rw [hd] at h
  simp only at h
  cases ev <;> simp [h, safeDelete]

theorem swrap64_eq_self (x : Int) (h1 : -(2 ^ 63) ≤ x) (h2 : x < 2 ^ 63) :
    swrap 64 x = x := by
  unfold swrap
  norm_num at h1 h2 ⊢
  omega

/-- Claim C5: `Add` fails with the already-exists error exactly when a live
(non-expired: expiry unset, or the query time at most the expiry) entry is
present for the key; otherwise it succeeds and stores exactly what `Set`
would.  The hypothesis `hexp` restricts to the reachable states, in which
stored expirations are never negative. -/
theorem add_semantics (c : CacheState) (now : Int) (k : String) (x : GoVal)
    (d : Int)
    (hexp : ∀ it, mapLoad c.items k = some it → 0 ≤ it.Expiration) :
    (liveEntry c now k →
      Add c now k x d = .error ("Item " ++ k ++ " already exists")) ∧
    (¬ liveEntry c now k →
      Add c now k x d = .ok (set c now k x d) ∧
      set c now k x d = (Set c now k x d).1) := by
  unfold Add get liveEntry
  cases hl : mapLoad c.items k with
  | none =>
    refine ⟨fun hlive => ?_, fun _ => ⟨rfl, rfl⟩⟩
    rcases hlive with ⟨it, hit, _⟩
    exact absurd hit (by simp)
  | some it =>
    have h0 := hexp it hl
    dsimp only
    constructor
    · rintro ⟨it2, hit2, hcase⟩
      injection hit2 with hit2
      subst hit2
      rcases hcase with hz | hle
      · rw [if_neg (by omega : ¬ (0:Int) < it.Expiration)]
      · by_cases hpos : (0:Int) < it.Expiration
        · rw [if_pos hpos, if_neg (not_lt.mpr hle)]
        · rw [if_neg hpos]
    · intro hnot
      have hne : ¬ (it.Expiration = 0 ∨ now ≤ it.Expiration) := by
        intro hc
        exact hnot ⟨it, rfl, hc⟩
      push_neg at hne
      rw [if_pos (by omega : (0:Int) < it.Expiration),
          if_pos (by omega : it.Expiration < now)]
      exact ⟨rfl, rfl⟩

/-- Witness for C5: adding over a live never-expiring entry fails with the
already-exists error; adding under a fresh key succeeds and stores what `Set`
stores. -/
theorem add_semantics_w :
    Add ⟨-1, [("x", ⟨.vInt64 5, 0⟩)], 1, false⟩ 5 "x" (.vInt64 9) (-1)
      = .error ("Item x already exists") ∧
    Add ⟨-1, [("x", ⟨.vInt64 5, 0⟩)], 1, false⟩ 5 "y" (.vInt64 9) (-1)
      = .ok (set ⟨-1, [("x", ⟨.vInt64 5, 0⟩)], 1, false⟩ 5 "y" (.vInt64 9) (-1)) :=
  ⟨(add_semantics ⟨-1, [("x", ⟨.vInt64 5, 0⟩)], 1, false⟩ 5 "x" (.vInt64 9) (-1)
      (by decide)).1 ⟨⟨.vInt64 5, 0⟩, by decide, Or.inl rfl⟩,
   ((add_semantics ⟨-1, [("x", ⟨.vInt64 5, 0⟩)], 1, false⟩ 5 "y" (.vInt64 9) (-1)
      (by decide)).2 (by simp [liveEntry, mapLoad])).1⟩

/-- Claim C7: on a live `int64` entry, `IncrementInt64 k n` followed
immediately by `DecrementInt64 k n` restores the original stored value, for
in-range `n` and a non-overflowing sum. -/
theorem inc_dec_roundtrip (c : CacheState) (now : Int) (k : String)
    (n rv e : Int)
    (hload : mapLoad c.items k = some ⟨.vInt64 rv, e⟩)
    (hlive : Item.Expired ⟨.vInt64 rv, e⟩ now = false)
    (hrv : -(2 ^ 63) ≤ rv ∧ rv < 2 ^ 63)
    (hn : -(2 ^ 63) ≤ n ∧ n < 2 ^ 63)
    (hsum : -(2 ^ 63) ≤ rv + n ∧ rv + n < 2 ^ 63) :
    ∃ c1 c2, Item.Expired ⟨.vInt64 rv, e⟩ now = false ∧
      IncrementInt64 c now k n = .ok (rv + n, c1) ∧
      DecrementInt64 c1 now k n = .ok (rv, c2) ∧
      mapLoad c2.items k = some ⟨.vInt64 rv, e⟩ := by
  have hw1 : swrap 64 (rv + n) = rv + n := swrap64_eq_self _ hsum.1 hsum.2
  have hw2 : swrap 64 (rv + n - n) = rv := by
    rw [(by ring : rv + n - n = rv)]
    exact swrap64_eq_self _ hrv.1 hrv.2
  refine ⟨safeStore c k ⟨.vInt64 (rv + n), e⟩,
    safeStore (safeStore c k ⟨.vInt64 (rv + n), e⟩) k ⟨.vInt64 rv, e⟩,
    hlive, ?_, ?_, ?_⟩
  · unfold IncrementInt64
    rw [hload]
    dsimp only
    rw [if_neg (by simp [hlive]), hw1]
  · unfold DecrementInt64
    rw [show mapLoad (safeStore c k ⟨.vInt64 (rv + n), e⟩).items k
          = some ⟨.vInt64 (rv + n), e⟩ from mapLoad_mapStore_self c.items k _]
    dsimp only
    rw [if_neg (by simp; exact (by simpa using hlive : _)), hw2]
  · exact mapLoad_mapStore_self _ k _

/-- Witness for C7: a concrete round-trip, 100 + 7 − 7 = 100. -/
theorem inc_dec_roundtrip_w :
    ∃ c1 c2, Item.Expired ⟨.vInt64 100, 0⟩ 0 = false ∧
      IncrementInt64 ⟨-1, [("k", ⟨.vInt64 100, 0⟩)], 1, false⟩ 0 "k" 7
        = .ok (100 + 7, c1) ∧
      DecrementInt64 c1 0 "k" 7 = .ok (100, c2) ∧
      mapLoad c2.items "k" = some ⟨.vInt64 100, 0⟩ :=
  inc_dec_roundtrip ⟨-1, [("k", ⟨.vInt64 100, 0⟩)], 1, false⟩ 0 "k" 7 100 0
    (by decide) (by decide) (by norm_num) (by norm_num) (by norm_num)

/-! ### Inversion lemmas for successful mutation operations -/

theorem Increment_ok (c : CacheState) (now : Int) (k : String) (n : Int)
    (c2 : CacheState) (h : Increment c now k n = .ok c2) :
    ∃ it x, mapLoad c.items k = some it ∧ Item.Expired it now = false ∧
      incSwitch it.Object n = some x ∧ c2 = safeStore c k ⟨x, it.Expiration⟩ := by
  unfold Increment at h
  cases hl : mapLoad c.items k with
  | none => rw [hl] at h; exact absurd h (by simp)
  | some it =>
    rw [hl] at h
    dsimp only at h
    split at h
    · exact absurd h (by simp)
    · rename_i hexp
      cases hs : incSwitch it.Object n with
      | none => rw [hs] at h; exact absurd h (by simp)
      | some x =>
        rw [hs] at h
        dsimp only at h
        injection h with h
        exact ⟨it, x, rfl, by simpa using hexp, hs, h.symm⟩

theorem Decrement_ok (c : CacheState) (now : Int) (k : String) (n : Int)
    (c2 : CacheState) (h : Decrement c now k n = .ok c2) :
    ∃ it x, mapLoad c.items k = some it ∧ Item.Expired it now = false ∧
      decSwitch it.Object n = some x ∧ c2 = safeStore c k ⟨x, it.Expiration⟩ := by
  unfold Decrement at h
  cases hl : mapLoad c.items k with
  | none => rw [hl] at h; exact absurd h (by simp)
  | some it =>
    rw [hl] at h
    dsimp only at h
    split at h
    · exact absurd h (by simp)
    · rename_i hexp
      cases hs : decSwitch it.Object n with
      | none => rw [hs] at h; exact absurd h (by simp)
      | some x =>
        rw [hs] at h
        dsimp only at h
        injection h with h
        exact ⟨it, x, rfl, by simpa using hexp, hs, h.symm⟩

theorem IncrementInt64_ok (c : CacheState) (now : Int) (k : String) (n : Int)
    (nv : Int) (c2 : CacheState) (h : IncrementInt64 c now k n = .ok (nv, c2)) :
    ∃ rv e, mapLoad c.items k = some ⟨.vInt64 rv, e⟩ ∧
      Item.Expired ⟨.vInt64 rv, e⟩ now = false ∧
      nv = swrap 64 (rv + n) ∧ c2 = safeStore c k ⟨.vInt64 nv, e⟩ := by
  unfold IncrementInt64 at h
  cases hl : mapLoad c.items k with
  | none => rw [hl] at h; exact absurd h (by simp)
  | some it =>
    rw [hl] at h
    obtain ⟨io, ie⟩ := it
    dsimp only at h
    split at h
    · exact absurd h (by simp)
    · rename_i hexp
      cases io with
      | vInt64 rv =>
        dsimp only at h
        injection h with h
        injection h with h1 h2
        refine ⟨rv, ie, rfl, by simpa using hexp, h1.symm, ?_⟩
        rw [← h2, ← h1]
      | vInt m => exact absurd h (by simp)
      | vInt8 m => exact absurd h (by simp)
      | vInt16 m => exact absurd h (by simp)
      | vInt32 m => exact absurd h (by simp)
      | vUint m => exact absurd h (by simp)
      | vUintptr m => exact absurd h (by simp)
      | vUint8 m => exact absurd h (by simp)
      | vUint16 m => exact absurd h (by simp)
      | vUint32 m => exact absurd h (by simp)
      | vUint64 m => exact absurd h (by simp)
      | vStr s => exact absurd h (by simp)

theorem DecrementInt64_ok (c : CacheState) (now : Int) (k : String) (n : Int)
    (nv : Int) (c2 : CacheState) (h : DecrementInt64 c now k n = .ok (nv, c2)) :
    ∃ rv e, mapLoad c.items k = some ⟨.vInt64 rv, e⟩ ∧
      Item.Expired ⟨.vInt64 rv, e⟩ now = false ∧
      nv = swrap 64 (rv - n) ∧ c2 = safeStore c k ⟨.vInt64 nv, e⟩ := by
  unfold DecrementInt64 at h
  cases hl : mapLoad c.items k with
  | none => rw [hl] at h; exact absurd h (by simp)
  | some it =>
    rw [hl] at h
    obtain ⟨io, ie⟩ := it
    dsimp only at h
    split at h
    · exact absurd h (by simp)
    · rename_i hexp
      cases io with
      | vInt64 rv =>
        dsimp only at h
        injection h with h
        injection h with h1 h2
        refine ⟨rv, ie, rfl, by simpa using hexp, h1.symm, ?_⟩
        rw [← h2, ← h1]
      | vInt m => exact absurd h (by simp)
      | vInt8 m => exact absurd h (by simp)
      | vInt16 m => exact absurd h (by simp)
      | vInt32 m => exact absurd h (by simp)
      | vUint m => exact absurd h (by simp)
      | vUintptr m => exact absurd h (by simp)
      | vUint8 m => exact absurd h (by simp)
      | vUint16 m => exact absurd h (by simp)
      | vUint32 m => exact absurd h (by simp)
      | vUint64 m => exact absurd h (by simp)
      | vStr s => exact absurd h (by simp)

/-- Claim C6: every successful generic or typed increment/decrement replaces
only that entry's value — the new value is the arithmetic result of the
operation's switch — keeps the entry's expiration timestamp unchanged, and
leaves every other key's binding untouched. -/
theorem mutate_keeps_expiration (c : CacheState) (now : Int) (k : String)
    (n : Int) :
    (∀ c2, Increment c now k n = .ok c2 →
      ∃ it x, mapLoad c.items k = some it ∧ incSwitch it.Object n = some x ∧
        mapLoad c2.items k = some ⟨x, it.Expiration⟩ ∧
        ∀ k2, k2 ≠ k → mapLoad c2.items k2 = mapLoad c.items k2) ∧
    (∀ c2, Decrement c now k n = .ok c2 →
      ∃ it x, mapLoad c.items k = some it ∧ decSwitch it.Object n = some x ∧
        mapLoad c2.items k = some ⟨x, it.Expiration⟩ ∧
        ∀ k2, k2 ≠ k → mapLoad c2.items k2 = mapLoad c.items k2) ∧
    (∀ nv c2, IncrementInt64 c now k n = .ok (nv, c2) →
      ∃ rv e, mapLoad c.items k = some ⟨.vInt64 rv, e⟩ ∧
        nv = swrap 64 (rv + n) ∧ mapLoad c2.items k = some ⟨.vInt64 nv, e⟩ ∧
        ∀ k2, k2 ≠ k → mapLoad c2.items k2 = mapLoad c.items k2) ∧
    (∀ nv c2, DecrementInt64 c now k n = .ok (nv, c2) →
      ∃ rv e, mapLoad c.items k = some ⟨.vInt64 rv, e⟩ ∧
        nv = swrap 64 (rv - n) ∧ mapLoad c2.items k = some ⟨.vInt64 nv, e⟩ ∧
        ∀ k2, k2 ≠ k → mapLoad c2.items k2 = mapLoad c.items k2) := by
  refine ⟨fun c2 h => ?_, fun c2 h => ?_, fun nv c2 h => ?_, fun nv c2 h => ?_⟩
  · obtain ⟨it, x, hl, _, hs, hc2⟩ := Increment_ok c now k n c2 h
    subst hc2
    exact ⟨it, x, hl, hs, mapLoad_mapStore_self c.items k _,
      fun k2 hk2 => mapLoad_mapStore_ne c.items k k2 _ hk2⟩
  · obtain ⟨it, x, hl, _, hs, hc2⟩ := Decrement_ok c now k n c2 h
    subst hc2
    exact ⟨it, x, hl, hs, mapLoad_mapStore_self c.items k _,
      fun k2 hk2 => mapLoad_mapStore_ne c.items k k2 _ hk2⟩
  · obtain ⟨rv, e, hl, _, hnv, hc2⟩ := IncrementInt64_ok c now k n nv c2 h
    subst hc2
    exact ⟨rv, e, hl, hnv, mapLoad_mapStore_self c.items k _,
      fun k2 hk2 => mapLoad_mapStore_ne c.items k k2 _ hk2⟩
  · obtain ⟨rv, e, hl, _, hnv, hc2⟩ := DecrementInt64_ok c now k n nv c2 h
    subst hc2
    exact ⟨rv, e, hl, hnv, mapLoad_mapStore_self c.items k _,
      fun k2 hk2 => mapLoad_mapStore_ne c.items k k2 _ hk2⟩

/-- Witness for C6: concrete successful calls of all four operations on an
`int64` entry with expiration 77, which each preserve that expiration. -/
theorem mutate_keeps_expiration_w :
    (∃ it x, mapLoad [("k", (⟨.vInt64 10, 77⟩ : Item))] "k" = some it ∧
      incSwitch it.Object 5 = some x ∧
      mapLoad [("k", (⟨.vInt64 15, 77⟩ : Item))] "k" = some ⟨x, it.Expiration⟩ ∧
      ∀ k2, k2 ≠ "k" → mapLoad [("k", (⟨.vInt64 15, 77⟩ : Item))] k2
        = mapLoad [("k", (⟨.vInt64 10, 77⟩ : Item))] k2) ∧
    (∃ it x, mapLoad [("k", (⟨.vInt64 10, 77⟩ : Item))] "k" = some it ∧
      decSwitch it.Object 5 = some x ∧
      mapLoad [("k", (⟨.vInt64 5, 77⟩ : Item))] "k" = some ⟨x, it.Expiration⟩ ∧
      ∀ k2, k2 ≠ "k" → mapLoad [("k", (⟨.vInt64 5, 77⟩ : Item))] k2
        = mapLoad [("k", (⟨.vInt64 10, 77⟩ : Item))] k2) ∧
    (∃ rv e, mapLoad [("k", (⟨.vInt64 10, 77⟩ : Item))] "k" = some ⟨.vInt64 rv, e⟩ ∧
      (15 : Int) = swrap 64 (rv + 5) ∧
      mapLoad [("k", (⟨.vInt64 15, 77⟩ : Item))] "k" = some ⟨.vInt64 15, e⟩ ∧
      ∀ k2, k2 ≠ "k" → mapLoad [("k", (⟨.vInt64 15, 77⟩ : Item))] k2
        = mapLoad [("k", (⟨.vInt64 10, 77⟩ : Item))] k2) ∧
    (∃ rv e, mapLoad [("k", (⟨.vInt64 10, 77⟩ : Item))] "k" = some ⟨.vInt64 rv, e⟩ ∧
      (5 : Int) = swrap 64 (rv - 5) ∧
      mapLoad [("k", (⟨.vInt64 5, 77⟩ : Item))] "k" = some ⟨.vInt64 5, e⟩ ∧
      ∀ k2, k2 ≠ "k" → mapLoad [("k", (⟨.vInt64 5, 77⟩ : Item))] k2
        = mapLoad [("k", (⟨.vInt64 10, 77⟩ : Item))] k2) :=
  ⟨(mutate_keeps_expiration ⟨-1, [("k", ⟨.vInt64 10, 77⟩)], 1, false⟩ 3 "k" 5).1
      ⟨-1, [("k", ⟨.vInt64 15, 77⟩)], 2, false⟩ (by rfl),
   (mutate_keeps_expiration ⟨-1, [("k", ⟨.vInt64 10, 77⟩)], 1, false⟩ 3 "k" 5).2.1
      ⟨-1, [("k", ⟨.vInt64 5, 77⟩)], 2, false⟩ (by rfl),
   (mutate_keeps_expiration ⟨-1, [("k", ⟨.vInt64 10, 77⟩)], 1, false⟩ 3 "k" 5).2.2.1
      15 ⟨-1, [("k", ⟨.vInt64 15, 77⟩)], 2, false⟩ (by rfl),
   (mutate_keeps_expiration ⟨-1, [("k", ⟨.vInt64 10, 77⟩)], 1, false⟩ 3 "k" 5).2.2.2
      5 ⟨-1, [("k", ⟨.vInt64 5, 77⟩)], 2, false⟩ (by rfl)⟩

/-- Claim C9: with a hook registered, `Delete` of a present key reports
exactly one hook invocation with that key and its prior value; `Delete` of an
absent key reports none; `Set` reports none; `Flush` empties the store and
reports none. -/
theorem eviction_hook_correct (c : CacheState) (now : Int) (k : String)
    (x : GoVal) (d : Int) (it : Item) :
    (c.hasHook = true → mapLoad c.items k = some it →
      Delete c k = (safeDelete c k, [(k, some it.Object)])) ∧
    (mapLoad c.items k = none → Delete c k = (safeDelete c k, [])) ∧
    (Set c now k x d).2 = [] ∧
    (Flush c).1.items = [] ∧ (Flush c).2 = [] := by
  refine ⟨?_, ?_, rfl, ?_, rfl⟩
  · intro hh hl
    unfold Delete delete
    rw [if_pos hh, hl]
    rfl
  · intro hl
    unfold Delete delete
    cases hh : c.hasHook <;> simp [hl]
  · exact flush_fold_empty c.items c (fun p hp => List.mem_map_of_mem Prod.fst hp)

/-- Witness for C9: deleting the present key "k" with a hook registered
reports one invocation with the prior value; deleting the absent "zz" reports
none. -/
theorem eviction_hook_correct_w :
    Delete ⟨-1, [("k", ⟨.vInt 3, 0⟩)], 1, true⟩ "k"
      = (safeDelete ⟨-1, [("k", ⟨.vInt 3, 0⟩)], 1, true⟩ "k",
         [("k", some (.vInt 3))]) ∧
    Delete ⟨-1, [("k", ⟨.vInt 3, 0⟩)], 1, true⟩ "zz"
      = (safeDelete ⟨-1, [("k", ⟨.vInt 3, 0⟩)], 1, true⟩ "zz", []) :=
  ⟨(eviction_hook_correct ⟨-1, [("k", ⟨.vInt 3, 0⟩)], 1, true⟩ 0 "k"
      (.vInt 3) 0 ⟨.vInt 3, 0⟩).1 rfl (by decide),
   (eviction_hook_correct ⟨-1, [("k", ⟨.vInt 3, 0⟩)], 1, true⟩ 0 "zz"
      (.vInt 3) 0 ⟨.vInt 3, 0⟩).2.1 (by decide)⟩

/-- Claim C10: every successful increment/decrement (generic or typed) also
bumps the wrapping live counter by one, since the rewrite goes through
`safeStore`; hence `m` successful `IncrementInt64` calls on a live `int64`
entry raise `ItemCount` by `m` (mod `2 ^ 32`) without adding a key. -/
theorem increment_bumps_count (c : CacheState) (now : Int) (k : String)
    (n : Int) :
    (∀ c2, Increment c now k n = .ok c2 →
      ItemCount c2 = (ItemCount c + 1) % uint32Mod) ∧
    (∀ c2, Decrement c now k n = .ok c2 →
      ItemCount c2 = (ItemCount c + 1) % uint32Mod) ∧
    (∀ nv c2, IncrementInt64 c now k n = .ok (nv, c2) →
      ItemCount c2 = (ItemCount c + 1) % uint32Mod) ∧
    (∀ nv c2, DecrementInt64 c now k n = .ok (nv, c2) →
      ItemCount c2 = (ItemCount c + 1) % uint32Mod) ∧
    (∀ rv e m, c.counter < uint32Mod →
      mapLoad c.items k = some ⟨.vInt64 rv, e⟩ →
      Item.Expired ⟨.vInt64 rv, e⟩ now = false →
      ∃ c2, iterInc now k n m c = some c2 ∧
        ItemCount c2 = (ItemCount c + m) % uint32Mod) := by
  refine ⟨fun c2 h => ?_, fun c2 h => ?_, fun nv c2 h => ?_, fun nv c2 h => ?_,
    fun rv e m => ?_⟩
  · obtain ⟨it, x, _, _, _, hc2⟩ := Increment_ok c now k n c2 h
    subst hc2; rfl
  · obtain ⟨it, x, _, _, _, hc2⟩ := Decrement_ok c now k n c2 h
    subst hc2; rfl
  · obtain ⟨rv, e, _, _, _, hc2⟩ := IncrementInt64_ok c now k n nv c2 h
    subst hc2; rfl
  · obtain ⟨rv, e, _, _, _, hc2⟩ := DecrementInt64_ok c now k n nv c2 h
    subst hc2; rfl
  · induction m generalizing c rv with
    | zero =>
      intro hc hl hexp
      exact ⟨c, rfl, by simp [ItemCount, Nat.mod_eq_of_lt hc]⟩
    | succ m ih =>
      intro hc hl hexp
      have hstep : IncrementInt64 c now k n
          = .ok (swrap 64 (rv + n), safeStore c k ⟨.vInt64 (swrap 64 (rv + n)), e⟩) := by
        unfold IncrementInt64
        rw [hl]
        dsimp only
        rw [if_neg (by simp [hexp])]
      have h1 : mapLoad (safeStore c k ⟨.vInt64 (swrap 64 (rv + n)), e⟩).items k
          = some ⟨.vInt64 (swrap 64 (rv + n)), e⟩ :=
        mapLoad_mapStore_self c.items k _
      have h2 : Item.Expired ⟨.vInt64 (swrap 64 (rv + n)), e⟩ now = false := hexp
      have h3 : (safeStore c k ⟨.vInt64 (swrap 64 (rv + n)), e⟩).counter < uint32Mod :=
        Nat.mod_lt _ (by decide)
      obtain ⟨c2, hiter, hcount⟩ :=
        ih (safeStore c k ⟨.vInt64 (swrap 64 (rv + n)), e⟩) (swrap 64 (rv + n))
          h3 h1 h2
      refine ⟨c2, ?_, ?_⟩
      · unfold iterInc
        rw [hstep]
        exact hiter
      · rw [hcount]
        show ((c.counter + 1) % uint32Mod + m) % uint32Mod
          = (c.counter + (m + 1)) % uint32Mod
        rw [Nat.mod_add_mod]
        congr 1
        omega

/-- Witness for C10: one concrete successful `IncrementInt64` bumps the
counter from 4 to 5, and three iterated calls raise `ItemCount` by 3. -/
theorem increment_bumps_count_w :
    ItemCount ⟨-1, [("k", ⟨.vInt64 2, 77⟩)], 5, false⟩
      = (ItemCount ⟨-1, [("k", ⟨.vInt64 0, 77⟩)], 4, false⟩ + 1) % uint32Mod ∧
    (∃ c2, iterInc 5 "k" 2 3 ⟨-1, [("k", ⟨.vInt64 0, 77⟩)], 4, false⟩ = some c2 ∧
      ItemCount c2
        = (ItemCount ⟨-1, [("k", ⟨.vInt64 0, 77⟩)], 4, false⟩ + 3) % uint32Mod) :=
  ⟨(increment_bumps_count ⟨-1, [("k", ⟨.vInt64 0, 77⟩)], 4, false⟩ 5 "k" 2).2.2.1
      2 ⟨-1, [("k", ⟨.vInt64 2, 77⟩)], 5, false⟩ (by rfl),
   (increment_bumps_count ⟨-1, [("k", ⟨.vInt64 0, 77⟩)], 4, false⟩ 5 "k" 2).2.2.2.2
      0 77 3 (by decide) (by decide) (by decide)⟩

end GoSyncmapCache
